import Mathlib

/-!
# Workload Peer Table — verification of the `net_data_map` specification

Shallow embedding of `src/internal/datapath/bpf/lib/net_data.h`, the single
source file of the repository.  The header declares

* `struct veth_peer`  — `__u32 if_index; __be32 if_addr; __u8 mac_addr[ETH_ALEN];`
* `struct net_data`   — `veth_peer pod_peer; veth_peer host_peer; __u16 host_port;`
* `net_data_map`      — a `BPF_MAP_TYPE_HASH` map with `__u32` keys,
  `struct net_data` values, `max_entries` 256 and `LIBBPF_PIN_BY_NAME`
  pinning, whose header comment says the key is either the host port or
  the pod peer address.

The map's operation bodies (`bpf_map_update_elem`, `bpf_map_lookup_elem`,
`bpf_map_delete_elem`) are kernel code that is not part of the repository,
so the table operations below are modelled from the specification's access
contract (§4.1), as an association list with distinct keys in reachable
states.  Machine integers are `Nat` with explicit width bounds.
-/

set_option autoImplicit false

namespace NetData

/-- Number of bytes in a MAC address (`ETH_ALEN` from the Linux headers,
used by `__u8 mac_addr[ETH_ALEN]` in the source). -/
def ETH_ALEN : Nat := 6

/-- `struct veth_peer`: identity of one side of a workload's veth pair.
`if_index` embeds `__u32`, `if_addr` embeds `__be32` (a 32-bit IPv4
address), `mac_addr` embeds `__u8 mac_addr[ETH_ALEN]` as a list of bytes. -/
structure veth_peer where
  if_index : Nat
  if_addr : Nat
  mac_addr : List Nat
  deriving DecidableEq, Repr

/-- A `veth_peer` whose fields fit their declared C widths:
4-byte interface index, 4-byte address, `ETH_ALEN` (6) one-byte
MAC octets. -/
def veth_peer.valid (v : veth_peer) : Prop :=
  v.if_index < 2 ^ (8 * 4) ∧ v.if_addr < 2 ^ (8 * 4) ∧
    v.mac_addr.length = ETH_ALEN ∧ ∀ b ∈ v.mac_addr, b < 2 ^ 8

instance (v : veth_peer) : Decidable v.valid := by
  unfold veth_peer.valid; infer_instance

/-- `struct net_data`: all networking information related to a workload —
the two ends of its veth pair plus the published host port (`__u16`). -/
structure net_data where
  pod_peer : veth_peer
  host_peer : veth_peer
  host_port : Nat
  deriving DecidableEq, Repr

/-- A `net_data` record whose fields fit their declared C widths:
two valid `veth_peer`s plus a 2-byte host port. -/
def net_data.valid (r : net_data) : Prop :=
  r.pod_peer.valid ∧ r.host_peer.valid ∧ r.host_port < 2 ^ (8 * 2)

instance (r : net_data) : Decidable r.valid := by
  unfold net_data.valid; infer_instance

/-! ## The map declaration

`net_data_map` is declared in the source as an anonymous struct with
libbpf's `__uint`/`__type` configuration macros; we embed the
configuration verbatim. -/

/-- BPF map types appearing in the source (only `BPF_MAP_TYPE_HASH`). -/
inductive BpfMapType where
  | hash
  deriving DecidableEq, Repr

/-- Pinning modes appearing in the source (only `LIBBPF_PIN_BY_NAME`). -/
inductive BpfPinning where
  | byName
  deriving DecidableEq, Repr

/-- The static configuration of a BPF map declaration. -/
structure BpfMapDecl where
  mapType : BpfMapType
  keyBytes : Nat
  maxEntries : Nat
  pinning : BpfPinning
  deriving DecidableEq, Repr

/-- The `net_data_map` declaration from `net_data.h`:
`BPF_MAP_TYPE_HASH`, `__u32` key (4 bytes), `max_entries` 256,
`LIBBPF_PIN_BY_NAME`. -/
def net_data_map : BpfMapDecl :=
  { mapType := BpfMapType.hash
    keyBytes := 4
    maxEntries := 256
    pinning := BpfPinning.byName }

/-- Modelled from the spec: "pinning: persisting a kernel-resident table
under a stable name so it outlives any single load of the program that
uses it" — a map's contents survive replacement of the data-path program
exactly when it is pinned by name.  The pinning implementation is libbpf
and kernel code, not part of the repository. -/
def survivesProgReload (m : BpfMapDecl) : Prop :=
  m.pinning = BpfPinning.byName

/-! ## Key derivation

The header comment above the map says: "you can retrieve net_data using
one of the following values as keys: host port, pod peer address".  Both
are converted to the single `__u32` key type with no tag or namespace. -/

/-- The `__u32` key derived from a host port: the `__u16` port
zero-extended into the 32-bit key (value-preserving; reduction mod 2^32
embeds the C conversion to `__u32`). -/
def keyOfHostPort (p : Nat) : Nat := p % 2 ^ 32

/-- The `__u32` key derived from a pod peer address: the `__be32` address
used directly as the 32-bit key. -/
def keyOfPodAddr (a : Nat) : Nat := a % 2 ^ 32

/-! ## Table operations

Modelled from the spec: the bodies of `put`/`get`/`delete` are the
kernel's hash-map helpers, absent from the repository; §4.1 gives their
contract (insert-or-overwrite with fail-closed `Full`, copy-out `get`,
`delete` with `NotFound`).  The table state is an association list; the
capacity is the declaration's `max_entries`. -/

/-- The table's capacity: `max_entries` of the `net_data_map` declaration. -/
def capacity : Nat := net_data_map.maxEntries

/-- Table state: an association list from `__u32` keys to `net_data`
records. -/
abbrev Table := List (Nat × net_data)

/-- Look up the record stored for a key. -/
def lookup : Table → Nat → Option net_data
  | [], _ => none
  | (k', r) :: t, k => if k' = k then some r else lookup t k

/-- Whether a key is present in the table. -/
def containsKey (t : Table) (k : Nat) : Bool :=
  (lookup t k).isSome

/-- Replace the record stored for a key, leaving other entries in place. -/
def replaceEntry : Table → Nat → net_data → Table
  | [], _, _ => []
  | (k', r') :: t, k, r =>
      if k' = k then (k, r) :: replaceEntry t k r
      else (k', r') :: replaceEntry t k r

/-- Remove every entry stored for a key, leaving other entries in place. -/
def removeEntry : Table → Nat → Table
  | [], _ => []
  | (k', r') :: t, k =>
      if k' = k then removeEntry t k else (k', r') :: removeEntry t k

/-- `count()`: number of currently occupied entries. -/
def count (t : Table) : Nat := t.length

/-- Errors `put` may return, from the spec's signature
`put(key, record) -> Result<(), Full|InvalidKey>`. -/
inductive PutErr where
  | Full
  | InvalidKey
  deriving DecidableEq, Repr

/-- Errors `delete` may return, from the spec's signature
`delete(key) -> Result<(), NotFound>`. -/
inductive DelErr where
  | NotFound
  deriving DecidableEq, Repr

/-- `get(key)`: returns a copy of the current record for `key`, or none if
absent.  Modelled from the spec: read-only, no side effect on the table. -/
def get (t : Table) (k : Nat) : Option net_data :=
  lookup t k

/-- `put(key, record)`: inserts or overwrites the record for `key`.
Modelled from the spec: overwrite always succeeds; a new key is inserted
only below capacity, otherwise `put` fails closed with `Full` and the
table is unchanged.  The source declares the key as a plain `__u32` with
no domain tag, so no key-domain check exists and `InvalidKey` is never
produced (spec §9 records this as an open question about the source).
Returns the new table state together with the error, if any. -/
def put (t : Table) (k : Nat) (r : net_data) : Table × Option PutErr :=
  if containsKey t k then (replaceEntry t k r, none)
  else if count t < capacity then ((k, r) :: t, none)
  else (t, some PutErr.Full)

/-- `delete(key)`: removes the entry for `key`; fails with `NotFound` if
absent, leaving the table unchanged.  Modelled from the spec.  Returns the
new table state together with the error, if any. -/
def delete (t : Table) (k : Nat) : Table × Option DelErr :=
  if containsKey t k then (removeEntry t k, none)
  else (t, some DelErr.NotFound)

/-- One table operation, for the reachable-state semantics. -/
inductive Op where
  | put (k : Nat) (r : net_data)
  | delete (k : Nat)
  | get (k : Nat)
  deriving Repr

/-- State transition of one operation.  `get` is modelled from the spec as
returning a copy with no side effect. -/
def applyOp (t : Table) : Op → Table
  | Op.put k r => (put t k r).1
  | Op.delete k => (delete t k).1
  | Op.get _ => t

/-- Run a sequence of operations from a starting state. -/
def run (t : Table) (ops : List Op) : Table :=
  ops.foldl applyOp t

/-- A concrete fully populated workload record (workload A, following §8's
end-to-end scenario: pod address 10.0.0.5, host interface index 12, host
port 8080). -/
def wl_A : net_data :=
  { pod_peer := { if_index := 3, if_addr := 167772165, mac_addr := [2, 0, 0, 0, 0, 1] }
    host_peer := { if_index := 12, if_addr := 3232235521, mac_addr := [2, 0, 0, 0, 0, 2] }
    host_port := 8080 }

/-- A second, distinct concrete fully populated workload record. -/
def wl_B : net_data :=
  { pod_peer := { if_index := 7, if_addr := 167772166, mac_addr := [2, 0, 0, 0, 0, 3] }
    host_peer := { if_index := 14, if_addr := 3232235522, mac_addr := [2, 0, 0, 0, 0, 4] }
    host_port := 9090 }

/-! ## Helper lemmas about the association-list operations -/

theorem lookup_replaceEntry_self (t : Table) (k : Nat) (r : net_data) :
    lookup (replaceEntry t k r) k = (lookup t k).map fun _ => r := by
  induction t with
  | nil => rfl
  | cons p t ih =>
    obtain ⟨k', r'⟩ := p
    by_cases h : k' = k
    · simp [replaceEntry, lookup, h]
    · simp [replaceEntry, lookup, h, ih]

theorem lookup_replaceEntry_other (t : Table) (k k' : Nat) (r : net_data)
    (h : k' ≠ k) : lookup (replaceEntry t k r) k' = lookup t k' := by
  induction t with
  | nil => rfl
  | cons p t ih =>
    obtain ⟨k₀, r₀⟩ := p
    by_cases hk : k₀ = k
    · subst hk
      simp [replaceEntry, lookup, Ne.symm h, ih]
    · by_cases hk' : k₀ = k'
      · simp [replaceEntry, lookup, hk, hk', h]
      · simp [replaceEntry, lookup, hk, hk', ih]

theorem length_replaceEntry (t : Table) (k : Nat) (r : net_data) :
    (replaceEntry t k r).length = t.length := by
  induction t with
  | nil => rfl
  | cons p t ih =>
    obtain ⟨k₀, r₀⟩ := p
    by_cases hk : k₀ = k <;> simp [replaceEntry, hk, ih]

theorem lookup_removeEntry_self (t : Table) (k : Nat) :
    lookup (removeEntry t k) k = none := by
  induction t with
  | nil => rfl
  | cons p t ih =>
    obtain ⟨k₀, r₀⟩ := p
    by_cases hk : k₀ = k <;> simp [removeEntry, lookup, hk, ih]

theorem lookup_removeEntry_other (t : Table) (k k' : Nat) (h : k' ≠ k) :
    lookup (removeEntry t k) k' = lookup t k' := by
  induction t with
  | nil => rfl
  | cons p t ih =>
    obtain ⟨k₀, r₀⟩ := p
    by_cases hk : k₀ = k
    · subst hk
      simp [removeEntry, lookup, Ne.symm h, ih]
    · by_cases hk' : k₀ = k'
      · simp [removeEntry, lookup, hk, hk', h]
      · simp [removeEntry, lookup, hk, hk', ih]

theorem length_removeEntry_le (t : Table) (k : Nat) :
    (removeEntry t k).length ≤ t.length := by
  induction t with
  | nil => exact Nat.le_refl 0
  | cons p t ih =>
    obtain ⟨k₀, r₀⟩ := p
    by_cases hk : k₀ = k
    · simp only [removeEntry, if_pos hk]
      exact Nat.le_succ_of_le ih
    · simp only [removeEntry, if_neg hk, List.length_cons]
      exact Nat.succ_le_succ ih

/-- On success, `put` leaves the stored record for the written key equal to
the record passed in (shared between several claims). -/
theorem get_put_of_ok (t : Table) (k : Nat) (r : net_data)
    (hok : (put t k r).2 = none) : get (put t k r).1 k = some r := by
  unfold put at hok ⊢
  by_cases hc : containsKey t k
  · rcases Option.isSome_iff_exists.mp hc with ⟨v, hv⟩
    simp [hc, get, lookup_replaceEntry_self, hv]
  · by_cases hl : count t < capacity
    · simp [hc, hl, get, lookup]
    · simp [hc, hl] at hok

/-! ## Claim theorems -/

/-- Claim C2: for every valid 32-bit key `k` and fully populated record
`r`, a successful `put(k, r)` followed by `get(k)` returns exactly the
record last stored for `k`. -/
theorem C2_put_get_roundtrip (t : Table) (k : Nat) (r : net_data)
    (_hk : k < 2 ^ 32) (_hr : r.valid) (hok : (put t k r).2 = none) :
    get (put t k r).1 k = some r :=
  get_put_of_ok t k r hok

/-- Witness for C2 at a concrete input. -/
theorem C2_witness :
    (42 : Nat) < 2 ^ 32 ∧ wl_A.valid ∧ (put [] 42 wl_A).2 = none ∧
      get (put [] 42 wl_A).1 42 = some wl_A :=
  ⟨by decide, by decide, by decide,
   C2_put_get_roundtrip [] 42 wl_A (by decide) (by decide) (by decide)⟩

/-- Claim C3: `put` fails with `Full` exactly when the table is at its
fixed capacity and the key is not already present; overwriting a present
key succeeds even at capacity; and a failed `put` leaves the table
unchanged (no eviction). -/
theorem C3_put_full_iff (t : Table) (k : Nat) (r : net_data)
    (hcap : count t ≤ capacity) :
    ((put t k r).2 = some PutErr.Full ↔
       count t = capacity ∧ containsKey t k = false)
  ∧ (containsKey t k = true → (put t k r).2 = none)
  ∧ ((put t k r).2 = some PutErr.Full → (put t k r).1 = t) := by
  unfold put
  by_cases hc : containsKey t k
  · simp [hc]
  · by_cases hl : count t < capacity
    · simp [hc, hl]
      omega
    · simp [hc, hl]
      omega

/-- Witness for C3 at a concrete input. -/
theorem C3_witness :
    count [(1, wl_A)] ≤ capacity ∧
      (containsKey [(1, wl_A)] 1 = true → (put [(1, wl_A)] 1 wl_B).2 = none) :=
  ⟨by decide, (C3_put_full_iff [(1, wl_A)] 1 wl_B (by decide)).2.1⟩

/-- Claim C4: `delete(k)` succeeds exactly when `k` is present — after a
successful delete, `get(k)` returns absent; on an absent key it fails with
`NotFound` and leaves the table completely unchanged. -/
theorem C4_delete_spec (t : Table) (k : Nat) :
    (containsKey t k = true →
       (delete t k).2 = none ∧ get (delete t k).1 k = none)
  ∧ (containsKey t k = false →
       (delete t k).2 = some DelErr.NotFound ∧ (delete t k).1 = t) := by
  unfold delete
  by_cases hc : containsKey t k
  · simp [hc, get, lookup_removeEntry_self]
  · simp [hc]

/-- Witness for C4 at concrete inputs: a present key and an absent key. -/
theorem C4_witness :
    (containsKey [(5, wl_A)] 5 = true ∧ (delete [(5, wl_A)] 5).2 = none ∧
        get (delete [(5, wl_A)] 5).1 5 = none) ∧
      (containsKey ([] : Table) 9 = false ∧
        (delete ([] : Table) 9).2 = some DelErr.NotFound) :=
  ⟨⟨by decide, (C4_delete_spec [(5, wl_A)] 5).1 (by decide)⟩,
   ⟨by decide, ((C4_delete_spec [] 9).2 (by decide)).1⟩⟩

/-- Claim C5: `put(k, r)` and `delete(k)` leave the entry of every other
key `k'` — its presence and its record value — unchanged. -/
theorem C5_frame (t : Table) (k k' : Nat) (r : net_data) (h : k' ≠ k) :
    get (put t k r).1 k' = get t k' ∧ get (delete t k).1 k' = get t k' := by
  constructor
  · by_cases hc : containsKey t k
    · simp [put, hc, get, lookup_replaceEntry_other t k k' r h]
    · by_cases hl : count t < capacity
      · simp [put, hc, hl, get, lookup, Ne.symm h]
      · simp [put, hc, hl]
  · by_cases hc : containsKey t k
    · simp [delete, hc, get, lookup_removeEntry_other t k k' h]
    · simp [delete, hc]

/-- Witness for C5 at a concrete input. -/
theorem C5_witness :
    (7 : Nat) ≠ 5 ∧ get (put [(7, wl_B)] 5 wl_A).1 7 = get [(7, wl_B)] 7 :=
  ⟨by decide, (C5_frame [(7, wl_B)] 5 7 wl_A (by decide)).1⟩

/-- Claim C6: the persisted schema of `net_data_map` — 4-byte unsigned
key; fixed-size value of exactly two `veth_peer` entries (4-byte interface
index, 4-byte IPv4 address, 6-byte MAC each) followed by a 2-byte host
port; capacity fixed at 256 entries; pinned by name so its contents
survive replacement of the data-path program that reads it. -/
theorem C6_schema :
    net_data_map.keyBytes = 4
  ∧ net_data_map.maxEntries = 256 ∧ capacity = 256
  ∧ survivesProgReload net_data_map
  ∧ (∀ r : net_data, r.valid ↔
       (r.pod_peer.if_index < 2 ^ 32 ∧ r.pod_peer.if_addr < 2 ^ 32 ∧
        r.pod_peer.mac_addr.length = 6 ∧ (∀ b ∈ r.pod_peer.mac_addr, b < 256) ∧
        r.host_peer.if_index < 2 ^ 32 ∧ r.host_peer.if_addr < 2 ^ 32 ∧
        r.host_peer.mac_addr.length = 6 ∧ (∀ b ∈ r.host_peer.mac_addr, b < 256) ∧
        r.host_port < 2 ^ 16)) := by
  refine ⟨rfl, rfl, rfl, rfl, ?_⟩
  intro r
  simp only [net_data.valid, veth_peer.valid, ETH_ALEN]
  norm_num
  tauto

/-- Claim C8: the key space is undiscriminated — a lookup by the
zero-extended host port and a lookup by the pod peer address with the same
numeric value address the same single entry, so a record stored under one
key domain is retrievable under the other. -/
theorem C8_undiscriminated_keys (p a : Nat) (t : Table) (r : net_data)
    (h : keyOfHostPort p = keyOfPodAddr a) :
    get t (keyOfHostPort p) = get t (keyOfPodAddr a)
  ∧ ((put t (keyOfHostPort p) r).2 = none →
       get (put t (keyOfHostPort p) r).1 (keyOfPodAddr a) = some r) := by
  constructor
  · rw [h]
  · intro hok
    rw [← h]
    exact get_put_of_ok t (keyOfHostPort p) r hok

/-- Witness for C8 at a concrete colliding pair. -/
theorem C8_witness :
    keyOfHostPort 8080 = keyOfPodAddr 8080 ∧
      (put [] (keyOfHostPort 8080) wl_A).2 = none ∧
      get (put [] (keyOfHostPort 8080) wl_A).1 (keyOfPodAddr 8080) = some wl_A :=
  ⟨rfl, by decide,
   (C8_undiscriminated_keys 8080 8080 [] wl_A rfl).2 (by decide)⟩

/-- One operation keeps the entry count at or below capacity (shared
stepping lemma for the reachability invariant). -/
theorem count_applyOp_le (t : Table) (o : Op) (h : count t ≤ capacity) :
    count (applyOp t o) ≤ capacity := by
  cases o with
  | put k r =>
    by_cases hc : containsKey t k
    · simpa [applyOp, put, hc, count, length_replaceEntry] using h
    · by_cases hl : count t < capacity
      · simp only [applyOp, put, hc, hl, if_true, if_false, Bool.false_eq_true,
          ite_false, ite_true]
        simpa [count] using hl
      · simpa [applyOp, put, hc, hl] using h
  | delete k =>
    by_cases hc : containsKey t k
    · simp only [applyOp, delete, hc, ite_true]
      exact Nat.le_trans (length_removeEntry_le t k) h
    · simpa [applyOp, delete, hc] using h
  | get k => simpa [applyOp] using h

/-- Running any operation sequence from a bounded state stays bounded
(shared with the reachability invariant). -/
theorem count_run_le (ops : List Op) (t : Table) (h : count t ≤ capacity) :
    count (run t ops) ≤ capacity := by
  induction ops generalizing t with
  | nil => simpa [run] using h
  | cons o ops ih =>
    simp only [run, List.foldl_cons]
    exact ih (applyOp t o) (count_applyOp_le t o h)

/-- Claim C9: in every table state reachable from the empty table by put,
get and delete, the number of occupied entries is at most the declared
capacity of 256 — no operation sequence makes `count()` exceed it. -/
theorem C9_reachable_count_le (ops : List Op) :
    count (run [] ops) ≤ capacity ∧ capacity = 256 :=
  ⟨count_run_le ops [] (Nat.zero_le _), rfl⟩

/-- Claim C10: `get` is read-only — running a get leaves the entire table
state unchanged, so every key's presence and record value is the same
after the call as before it. -/
theorem C10_get_readonly (t : Table) (k k' : Nat) :
    applyOp t (Op.get k) = t ∧ get (applyOp t (Op.get k)) k' = get t k' :=
  ⟨rfl, rfl⟩

/-- Counterexample to claim C1 as stated: inserting workload A under the
host-port-derived key 8080 and then workload B under the numerically equal
pod-address-derived key is not rejected — both puts succeed with no
`InvalidKey` — and the two key domains address the same stored entry,
which after the second put holds workload B. -/
theorem C1_counterexample :
    wl_A ≠ wl_B
  ∧ (put [] (keyOfHostPort 8080) wl_A).2 = none
  ∧ (put (put [] (keyOfHostPort 8080) wl_A).1 (keyOfPodAddr 8080) wl_B).2 = none
  ∧ get (put (put [] (keyOfHostPort 8080) wl_A).1 (keyOfPodAddr 8080) wl_B).1
      (keyOfHostPort 8080) = some wl_B := by
  decide

/-- Claim C1 (amended): the source defines no key-domain check — `put`
never returns `InvalidKey` — and a pod-address-derived key numerically
equal to an in-use host-port-derived key addresses the same entry, so the
second insert succeeds as an overwrite of the first workload's record;
domain disjointness is left to the caller. -/
theorem C1_no_domain_check (t : Table) (k : Nat) (r : net_data) :
    (put t k r).2 ≠ some PutErr.InvalidKey
  ∧ (∀ p a r', keyOfHostPort p = keyOfPodAddr a →
       (put t (keyOfHostPort p) r).2 = none →
       (put (put t (keyOfHostPort p) r).1 (keyOfPodAddr a) r').2 = none ∧
       get (put (put t (keyOfHostPort p) r).1 (keyOfPodAddr a) r').1
           (keyOfHostPort p) = some r') := by
  constructor
  · unfold put
    by_cases hc : containsKey t k
    · simp [hc]
    · by_cases hl : count t < capacity <;> simp [hc, hl]
  · intro p a r' h hok
    have hget : lookup (put t (keyOfHostPort p) r).1 (keyOfHostPort p) = some r :=
      get_put_of_ok t (keyOfHostPort p) r hok
    generalize ht1 : (put t (keyOfHostPort p) r).1 = t1 at hget ⊢
    have hcont : containsKey t1 (keyOfPodAddr a) = true := by
      unfold containsKey
      rw [← h, hget]
      rfl
    have hl1 : lookup t1 (keyOfPodAddr a) = some r := by
      rw [← h]
      exact hget
    constructor
    · simp [put, hcont]
    · simp [put, hcont, get, h, lookup_replaceEntry_self, hl1]

/-- Witness for the amended C1 at concrete inputs. -/
theorem C1_witness :
    (put [] 1234 wl_A).2 ≠ some PutErr.InvalidKey ∧
      (put (put [] (keyOfHostPort 9090) wl_A).1 (keyOfPodAddr 9090) wl_B).2 = none :=
  ⟨(C1_no_domain_check [] 1234 wl_A).1,
   ((C1_no_domain_check [] 0 wl_A).2 9090 9090 wl_B rfl (by decide)).1⟩

end NetData
